import Mathlib

/-!  Verification development for the VoiceChat backend
(`src/backend/server.py`): the in-memory `ConnectionManager` registry,
the websocket signaling loop (`websocket_endpoint`), the request-style
relay endpoints (`send_offer`, `send_answer`, `send_ice_candidate`), and
the durable room-store operations (`create_room`, `update_voice_status`,
`leave_room`) that the registry claims touch.

Modelling conventions:
* Python `dict`s are association lists with unique keys; `d[k] = v`
  overwrites in place (keeping the entry's position, as a CPython dict
  does) or appends, `del d[k]` removes the entry, iteration follows the
  list order (CPython insertion order).
* A WebSocket handle is abstracted to a numeric identity; the outcome of
  `send_text` on a handle (success, or an exception raised by the
  transport) is an oracle `Handle → Bool` passed to each operation that
  performs sends, since the transport is an external collaborator.
* `json.loads` and subscripting of the loaded value are external
  library calls; an inbound frame is therefore paired with its parse
  outcome: `none` when `json.loads` raises or the loaded value is not an
  object (so that subscripting it raises), otherwise the values of the
  `"type"` and `"to_user"` keys (`none` for a missing key, where Python
  raises `KeyError`).
* Mongo documents are records holding exactly the fields the verified
  endpoints read or write (`id`, `created_by`, `participants`,
  `active_speakers`); opaque fields (name, language, timestamps, ...)
  are omitted.  `find_one`/`update_one`/`delete_one` act on the first
  matching document of the collection list.
-/

namespace VoiceChat

/-- User identifiers are opaque strings. -/
abbrev UserId := String

/-- Room identifiers are opaque strings. -/
abbrev RoomId := String

/-- A WebSocket connection handle, abstracted to its identity. -/
abbrev Handle := Nat

/-- First-occurrence lookup in an association list: Python `d[k]`, and
`k in d` via `Option.isSome`. -/
def dlookup [DecidableEq α] (k : α) : List (α × β) → Option β
  | [] => none
  | p :: t => if p.1 = k then some p.2 else dlookup k t

/-- Python `d[k] = v`: overwrite the entry in place when the key is
present, append a fresh entry at the end otherwise. -/
def dset [DecidableEq α] (k : α) (v : β) : List (α × β) → List (α × β)
  | [] => [(k, v)]
  | p :: t => if p.1 = k then (k, v) :: t else p :: dset k v t

/-- Python `del d[k]`: drop the first entry with key `k`. -/
def ddel [DecidableEq α] (k : α) : List (α × β) → List (α × β)
  | [] => []
  | p :: t => if p.1 = k then t else p :: ddel k t

/-- The state of `ConnectionManager` (server.py lines 37-40):
`active_connections : Dict[room, Dict[user, WebSocket]]` and
`room_participants : Dict[room, List[user]]`. -/
structure ConnectionManager where
  active_connections : List (RoomId × List (UserId × Handle))
  room_participants : List (RoomId × List UserId)
deriving DecidableEq

/-- The manager constructed by `ConnectionManager.__init__`. -/
def emptyManager : ConnectionManager := ⟨[], []⟩

/-- `ConnectionManager.connect` (server.py lines 42-50): when the room
is absent, the source first installs an empty map and list for it and
then writes into them, which nets to installing the singleton map
`[(user, handle)]` and list `[user]`; when the room is present, it
registers the handle in the room's map (overwrite or append) and
appends the user to the participant list if absent.  The source indexes
`room_participants[room_id]` unguarded; on states satisfying `Inv`
(proved to hold on all reachable states) the key is present, and the
model reads it with an empty default. -/
def connect (m : ConnectionManager) (websocket : Handle) (user_id : UserId)
    (room_id : RoomId) : ConnectionManager :=
  match dlookup room_id m.active_connections with
  | some conns =>
    let parts := (dlookup room_id m.room_participants).getD []
    { active_connections := dset room_id (dset user_id websocket conns) m.active_connections
      room_participants :=
        if user_id ∈ parts then m.room_participants
        else dset room_id (parts ++ [user_id]) m.room_participants }
  | none =>
    { active_connections := dset room_id [(user_id, websocket)] m.active_connections
      room_participants := dset room_id [user_id] m.room_participants }

/-- `ConnectionManager.disconnect` (server.py lines 52-60): if the
(room, user) entry exists, delete it, remove the user from the
participant list (guarded, as the source guards `list.remove`), and
delete both room entries when the room's connection map became empty.
Otherwise the call is a no-op. -/
def disconnect (m : ConnectionManager) (user_id : UserId) (room_id : RoomId) :
    ConnectionManager :=
  match dlookup room_id m.active_connections with
  | none => m
  | some conns =>
    match dlookup user_id conns with
    | none => m
    | some _ =>
      let conns' := ddel user_id conns
      let parts := (dlookup room_id m.room_participants).getD []
      let parts' := if user_id ∈ parts then parts.erase user_id else parts
      if conns'.isEmpty then
        { active_connections := ddel room_id m.active_connections
          room_participants := ddel room_id m.room_participants }
      else
        { active_connections := dset room_id conns' m.active_connections
          room_participants := dset room_id parts' m.room_participants }

/-- The spec's `members_of(room)`: the room's entry of
`room_participants` (empty for an unknown room). -/
def members_of (m : ConnectionManager) (room_id : RoomId) : List UserId :=
  (dlookup room_id m.room_participants).getD []

/-- The user ids keyed in a room's connection map, in iteration order. -/
def connectedUsers (m : ConnectionManager) (room_id : RoomId) : List UserId :=
  ((dlookup room_id m.active_connections).getD []).map Prod.fst

/-- The registered handle of a (room, user) pair: the spec's
`lookup(room, user)`. -/
def connOf (m : ConnectionManager) (room_id : RoomId) (user_id : UserId) :
    Option Handle :=
  (dlookup room_id m.active_connections).bind (fun conns => dlookup user_id conns)

/-- An outbound frame.  The source builds outbound frames either by
forwarding the raw inbound text verbatim (`raw`) or by `json.dumps` of a
fresh dict; since `json.dumps` of distinct dicts is injective, those
dicts are modelled structurally.  Opaque relayed blobs (`offer`,
`answer`, `candidate`, and the `user` document of `user_joined`) are
abstracted to strings. -/
inductive OutMsg where
  | raw (data : String)
  | user_disconnected (user_id : UserId)
  | user_left (user_id : UserId) (room_id : RoomId)
  | user_joined (user : String) (room_id : RoomId)
  | webrtc_offer (from_user : UserId) (offer : String)
  | webrtc_answer (from_user : UserId) (answer : String)
  | ice_candidate (from_user : UserId) (candidate : String)
  | voice_status_update (user_id : UserId) (is_speaking : Bool) (is_muted : Bool)
deriving DecidableEq

/-- One performed `send_text`: which user's registered handle received
which payload. -/
structure Delivery where
  user : UserId
  handle : Handle
  payload : OutMsg
deriving DecidableEq

/-- A send oracle under which every `send_text` succeeds. -/
def sendAllOk : Handle → Bool := fun _ => true

/-- `ConnectionManager.send_personal_message` (server.py lines 62-64):
if the (room, user) entry exists, `send_text` the message on that
handle — with no surrounding `try`, so a transport exception propagates
to the caller (the `none` result); otherwise do nothing.  The manager
state is never mutated. -/
def send_personal_message (m : ConnectionManager) (message : OutMsg)
    (user_id : UserId) (room_id : RoomId) (sendOk : Handle → Bool) :
    Option (List Delivery) :=
  match dlookup room_id m.active_connections with
  | none => some []
  | some conns =>
    match dlookup user_id conns with
    | none => some []
    | some ws => if sendOk ws then some [⟨user_id, ws, message⟩] else none

/-- `ConnectionManager.broadcast_to_room` (server.py lines 66-73):
iterate the room's connection map in order; skip the excluded user
(`exclude_user = None` excludes nobody, since a user id string is never
equal to `None`); attempt each remaining send inside a try-except whose
handler is `pass`, so a failed send is skipped and the loop continues.
Returns the deliveries performed. -/
def broadcastStep (message : OutMsg) (exclude_user : Option UserId)
    (sendOk : Handle → Bool) (p : UserId × Handle) : Option Delivery :=
  if some p.1 = exclude_user then none
  else if sendOk p.2 then some ⟨p.1, p.2, message⟩ else none

/-- The fan-out over the room's connection entries, one `broadcastStep`
per entry. -/
def broadcast_to_room (m : ConnectionManager) (message : OutMsg) (room_id : RoomId)
    (exclude_user : Option UserId) (sendOk : Handle → Bool) : List Delivery :=
  match dlookup room_id m.active_connections with
  | none => []
  | some conns => conns.filterMap (broadcastStep message exclude_user sendOk)

/-- The recipients a broadcast attempts to reach: the room's connection
entries minus the excluded user, independent of any send outcome. -/
def broadcastAttempts (m : ConnectionManager) (room_id : RoomId)
    (exclude_user : Option UserId) : List (UserId × Handle) :=
  ((dlookup room_id m.active_connections).getD []).filter
    (fun p => ¬ some p.1 = exclude_user)

/-- The parse outcome of one inbound websocket frame.  The loop body
runs `json.loads(data)` and subscripts the result with `"type"` (and,
on the targeted branches, `"to_user"`); a frame is modelled by the
values of those keys, `none` marking a key whose access raises. -/
structure ParsedFrame where
  type : Option String
  to_user : Option UserId
deriving DecidableEq

/-- Outcome of one iteration of the `websocket_endpoint` receive loop:
either the session stays active (with the manager state and the
deliveries performed), or an exception other than `WebSocketDisconnect`
escaped the loop body — nothing in `websocket_endpoint` catches it, so
the coroutine unwinds with the manager state untouched (no
`disconnect`, no notification) and the connection is torn down. -/
inductive StepResult where
  | active (m : ConnectionManager) (sent : List Delivery)
  | crashed (m : ConnectionManager)
deriving DecidableEq

/-- One iteration of the `websocket_endpoint` receive loop (server.py
lines 492-511) on an inbound frame `data` whose parse outcome is
`parsed`: `json.loads` failure or a missing `"type"` key raises
(uncaught); a `webrtc_offer` / `webrtc_answer` / `ice_candidate` frame
is relayed verbatim to `to_user` via `send_personal_message` (whose
unguarded send may itself raise); every other frame is broadcast to the
room excluding the sender. -/
def websocket_on_frame (m : ConnectionManager) (room_id : RoomId) (user_id : UserId)
    (data : String) (parsed : Option ParsedFrame) (sendOk : Handle → Bool) :
    StepResult :=
  match parsed with
  | none => .crashed m
  | some f =>
    match f.type with
    | none => .crashed m
    | some t =>
      if t = "webrtc_offer" ∨ t = "webrtc_answer" ∨ t = "ice_candidate" then
        match f.to_user with
        | none => .crashed m
        | some tu =>
          match send_personal_message m (.raw data) tu room_id sendOk with
          | none => .crashed m
          | some ds => .active m ds
      else
        .active m (broadcast_to_room m (.raw data) room_id (some user_id) sendOk)

/-- The `except WebSocketDisconnect` arm of `websocket_endpoint`
(server.py lines 513-521): on an ungraceful disconnect, first
`manager.disconnect(user_id, room_id)`, then broadcast a
`user_disconnected` frame carrying the user's id to the room with no
excluded user. -/
def websocket_on_disconnect (m : ConnectionManager) (room_id : RoomId)
    (user_id : UserId) (sendOk : Handle → Bool) :
    ConnectionManager × List Delivery :=
  let m' := disconnect m user_id room_id
  (m', broadcast_to_room m' (.user_disconnected user_id) room_id none sendOk)

/-- Request body of `POST /api/webrtc/offer` (class `WebRTCOffer`);
the `offer` dict is opaque. -/
structure WebRTCOffer where
  room_id : RoomId
  from_user : UserId
  to_user : UserId
  offer : String
deriving DecidableEq

/-- Request body of `POST /api/webrtc/answer` (class `WebRTCAnswer`). -/
structure WebRTCAnswer where
  room_id : RoomId
  from_user : UserId
  to_user : UserId
  answer : String
deriving DecidableEq

/-- Request body of `POST /api/webrtc/ice-candidate` (class
`ICECandidate`). -/
structure ICECandidate where
  room_id : RoomId
  from_user : UserId
  to_user : UserId
  candidate : String
deriving DecidableEq

/-- `send_offer` (server.py lines 421-432): relay via
`send_personal_message` (an unguarded transport exception becomes a
`none` result, surfaced as a 500 by the framework), then acknowledge
with `{"message": "Offer sent"}`.  The manager is returned unchanged to
record that the handler never mutates the registry. -/
def send_offer (m : ConnectionManager) (offer_data : WebRTCOffer)
    (sendOk : Handle → Bool) :
    Option (ConnectionManager × List Delivery × String) :=
  (send_personal_message m (.webrtc_offer offer_data.from_user offer_data.offer)
      offer_data.to_user offer_data.room_id sendOk).map
    (fun ds => (m, ds, "Offer sent"))

/-- `send_answer` (server.py lines 434-445), analogous to `send_offer`. -/
def send_answer (m : ConnectionManager) (answer_data : WebRTCAnswer)
    (sendOk : Handle → Bool) :
    Option (ConnectionManager × List Delivery × String) :=
  (send_personal_message m (.webrtc_answer answer_data.from_user answer_data.answer)
      answer_data.to_user answer_data.room_id sendOk).map
    (fun ds => (m, ds, "Answer sent"))

/-- `send_ice_candidate` (server.py lines 447-458), analogous to
`send_offer`. -/
def send_ice_candidate (m : ConnectionManager) (candidate_data : ICECandidate)
    (sendOk : Handle → Bool) :
    Option (ConnectionManager × List Delivery × String) :=
  (send_personal_message m
      (.ice_candidate candidate_data.from_user candidate_data.candidate)
      candidate_data.to_user candidate_data.room_id sendOk).map
    (fun ds => (m, ds, "ICE candidate sent"))

/-- The fields of a durable `ChatRoom` document that the verified
endpoints read or write; opaque fields (name, language, level,
timestamps, privacy flag, capacity) are omitted. -/
structure RoomRecord where
  id : RoomId
  created_by : UserId
  participants : List UserId
  active_speakers : List UserId
deriving DecidableEq

/-- The `db.rooms` collection; `insert_one` appends, `find_one` /
`update_one` / `delete_one` act on the first document matching the
filter. -/
abbrev RoomStore := List RoomRecord

/-- Mongo `update_one`: rewrite the first element satisfying the
filter, leave everything else (including a no-match collection)
unchanged. -/
def updateFirst (p : α → Bool) (f : α → α) : List α → List α
  | [] => []
  | a :: t => if p a then f a :: t else a :: updateFirst p f t

/-- The store mutation of `create_room` (server.py lines 319-337):
insert a fresh room document whose `participants` list holds exactly
the creator and whose `active_speakers` list is empty. -/
def create_room (store : RoomStore) (room_id : RoomId) (creator : UserId) :
    RoomStore :=
  store ++ [⟨room_id, creator, [creator], []⟩]

/-- `update_voice_status` (server.py lines 460-485): `$addToSet` the
user into `active_speakers` when speaking (append if absent, no
participant-membership check), `$pull` the user otherwise; then
broadcast a `voice_status_update` excluding the authenticated caller. -/
def update_voice_status (store : RoomStore) (m : ConnectionManager)
    (room_id : RoomId) (user_id : UserId) (is_speaking is_muted : Bool)
    (current_user : UserId) (sendOk : Handle → Bool) :
    RoomStore × List Delivery :=
  let store :=
    if is_speaking then
      updateFirst (fun rec => rec.id = room_id)
        (fun rec =>
          { rec with active_speakers :=
              if user_id ∈ rec.active_speakers then rec.active_speakers
              else rec.active_speakers ++ [user_id] }) store
    else
      updateFirst (fun rec => rec.id = room_id)
        (fun rec =>
          { rec with active_speakers := rec.active_speakers.filter (fun v => ¬ v = user_id) })
        store
  (store,
    broadcast_to_room m (.voice_status_update user_id is_speaking is_muted)
      room_id (some current_user) sendOk)

/-- The effect of `leave_room`'s `$pull` update document on a room
record: remove every occurrence of the caller from `participants` and
`active_speakers`. -/
def pullUser (current_user : UserId) (rec : RoomRecord) : RoomRecord :=
  { rec with
      participants := rec.participants.filter (fun v => ¬ v = current_user)
      active_speakers := rec.active_speakers.filter (fun v => ¬ v = current_user) }

/-- `leave_room` (server.py lines 367-397).  `find_one` the room (404
if absent); if the caller is in `participants`, `$pull` the caller from
both `participants` and `active_speakers` (Mongo `$pull` removes every
occurrence); `manager.disconnect`; broadcast `user_left` with no
excluded user; re-fetch and `delete_one` the room whenever its
`participants` list is empty — the creator is never consulted.  (The
re-fetch cannot miss, since nothing was deleted yet; the unreachable
`none` arm leaves the store unchanged where Python would raise on
subscripting `None`.)  Returns the updated store, manager, deliveries
and the success acknowledgment, or the 404 detail. -/
def leave_room (store : RoomStore) (m : ConnectionManager) (room_id : RoomId)
    (current_user : UserId) (sendOk : Handle → Bool) :
    Except String (RoomStore × ConnectionManager × List Delivery × String) :=
  match store.find? (fun rec => rec.id = room_id) with
  | none => .error "Room not found"
  | some room =>
    let store :=
      if current_user ∈ room.participants then
        updateFirst (fun rec => rec.id = room_id) (pullUser current_user) store
      else store
    let m := disconnect m current_user room_id
    let ds := broadcast_to_room m (.user_left current_user room_id) room_id none sendOk
    let store :=
      match store.find? (fun rec => rec.id = room_id) with
      | none => store
      | some updated =>
        if updated.participants.isEmpty then
          store.eraseP (fun rec => rec.id = room_id)
        else store
    .ok (store, m, ds, "Successfully left room")

/-- A registry operation: a session establishing (`connect`, with the
accepted handle) or a session/leave tearing down (`disconnect`). -/
inductive Op where
  | conn (ws : Handle) (u : UserId) (r : RoomId)
  | disc (u : UserId) (r : RoomId)
deriving DecidableEq

/-- Apply one operation to the manager. -/
def applyOp (m : ConnectionManager) : Op → ConnectionManager
  | .conn ws u r => connect m ws u r
  | .disc u r => disconnect m u r

/-- Run a sequence of operations. -/
def runOps (m : ConnectionManager) (ops : List Op) : ConnectionManager :=
  ops.foldl applyOp m

/-- A manager state reachable from the fresh manager by some sequence
of connect/disconnect operations. -/
def Reachable (m : ConnectionManager) : Prop :=
  ∃ ops, runOps emptyManager ops = m

/-- The registry invariant: both outer dicts have unique keys and the
same key set; every room entry of `active_connections` is a non-empty
map with unique user keys; and a room's participant list equals (as a
list) the key list of its connection map. -/
def Inv (m : ConnectionManager) : Prop :=
  (m.active_connections.map Prod.fst).Nodup ∧
  (m.room_participants.map Prod.fst).Nodup ∧
  (∀ r, (dlookup r m.active_connections).isSome
      = (dlookup r m.room_participants).isSome) ∧
  (∀ r conns, dlookup r m.active_connections = some conns →
      conns ≠ [] ∧ (conns.map Prod.fst).Nodup) ∧
  (∀ r conns parts, dlookup r m.active_connections = some conns →
      dlookup r m.room_participants = some parts →
      conns.map Prod.fst = parts)

/-! ### Association-list lemmas -/

theorem dlookup_dset [DecidableEq α] (k q : α) (v : β) (d : List (α × β)) :
    dlookup q (dset k v d) = if k = q then some v else dlookup q d := by
  induction d with
  | nil => simp [dset, dlookup]
  | cons p t ih =>
    by_cases h1 : p.1 = k
    · by_cases h2 : k = q <;> simp [dset, dlookup, h1, h2]
    · by_cases h3 : p.1 = q
      · have h2 : ¬ k = q := fun h => h1 (h3.trans h.symm)
        simp only [dset, if_neg h1, dlookup, if_pos h3, if_neg h2]
      · simp [dset, dlookup, h1, h3, ih]

theorem dlookup_isSome_iff [DecidableEq α] (k : α) (d : List (α × β)) :
    (dlookup k d).isSome ↔ k ∈ d.map Prod.fst := by
  induction d with
  | nil => simp [dlookup]
  | cons p t ih =>
    by_cases h : p.1 = k
    · simp [dlookup, h]
    · simp [dlookup, h, ih, Ne.symm h]

theorem dlookup_eq_none_iff [DecidableEq α] (k : α) (d : List (α × β)) :
    dlookup k d = none ↔ ¬ k ∈ d.map Prod.fst := by
  rw [← dlookup_isSome_iff, Option.not_isSome_iff_eq_none]

theorem map_fst_dset_of_isSome [DecidableEq α] (k : α) (v : β) (d : List (α × β))
    (h : (dlookup k d).isSome) : (dset k v d).map Prod.fst = d.map Prod.fst := by
  induction d with
  | nil => simp [dlookup] at h
  | cons p t ih =>
    by_cases h1 : p.1 = k
    · simp [dset, h1]
    · simp only [dlookup, h1, if_false] at h
      simp [dset, h1, ih h]

theorem map_fst_dset_of_none [DecidableEq α] (k : α) (v : β) (d : List (α × β))
    (h : dlookup k d = none) : (dset k v d).map Prod.fst = d.map Prod.fst ++ [k] := by
  induction d with
  | nil => simp [dset]
  | cons p t ih =>
    by_cases h1 : p.1 = k
    · simp [dlookup, h1] at h
    · simp only [dlookup, h1, if_false] at h
      simp [dset, h1, ih h]

theorem nodup_map_fst_dset [DecidableEq α] (k : α) (v : β) (d : List (α × β))
    (h : (d.map Prod.fst).Nodup) : ((dset k v d).map Prod.fst).Nodup := by
  by_cases hk : (dlookup k d).isSome
  · rw [map_fst_dset_of_isSome k v d hk]; exact h
  · have hn : dlookup k d = none := Option.not_isSome_iff_eq_none.mp hk
    have hm : ¬ k ∈ d.map Prod.fst := (dlookup_eq_none_iff k d).mp hn
    rw [map_fst_dset_of_none k v d hn]
    simp [List.nodup_append, h, hm]

theorem dset_ne_nil [DecidableEq α] (k : α) (v : β) (d : List (α × β)) :
    dset k v d ≠ [] := by
  cases d with
  | nil => simp [dset]
  | cons p t => by_cases h : p.1 = k <;> simp [dset, h]

theorem map_fst_ddel [DecidableEq α] (k : α) (d : List (α × β)) :
    (ddel k d).map Prod.fst = (d.map Prod.fst).erase k := by
  induction d with
  | nil => simp [ddel]
  | cons p t ih =>
    by_cases h : p.1 = k
    · simp [ddel, h, List.erase_cons]
    · simp [ddel, h, List.erase_cons, ih]

theorem dlookup_ddel_self [DecidableEq α] (k : α) (d : List (α × β))
    (h : (d.map Prod.fst).Nodup) : dlookup k (ddel k d) = none := by
  induction d with
  | nil => simp [ddel, dlookup]
  | cons p t ih =>
    simp only [List.map_cons, List.nodup_cons] at h
    by_cases h1 : p.1 = k
    · have hk : ¬ k ∈ t.map Prod.fst := h1 ▸ h.1
      simp only [ddel, h1, if_true]
      exact (dlookup_eq_none_iff k t).mpr hk
    · simp [ddel, dlookup, h1, ih h.2]

theorem dlookup_ddel_of_ne [DecidableEq α] {k q : α} (h : ¬ k = q)
    (d : List (α × β)) : dlookup q (ddel k d) = dlookup q d := by
  induction d with
  | nil => simp [ddel]
  | cons p t ih =>
    by_cases h1 : p.1 = k
    · have h2 : ¬ p.1 = q := fun hq => h (h1 ▸ hq)
      simp [ddel, dlookup, h1, h2, h]
    · simp [ddel, dlookup, h1, ih]

theorem length_ddel_of_isSome [DecidableEq α] {k : α} {d : List (α × β)}
    (h : (dlookup k d).isSome) : d.length = (ddel k d).length + 1 := by
  induction d with
  | nil => simp [dlookup] at h
  | cons p t ih =>
    by_cases h1 : p.1 = k
    · simp [ddel, h1]
    · simp only [dlookup, h1, if_false] at h
      simp [ddel, h1, ih h]

/-! ### The registry invariant holds on all reachable states -/

theorem inv_empty : Inv emptyManager := by
  unfold Inv emptyManager
  simp [dlookup]

theorem inv_connect (m : ConnectionManager) (ws : Handle) (u : UserId) (r : RoomId)
    (h : Inv m) : Inv (connect m ws u r) := by
  obtain ⟨h1, h2, h3, h4, h5⟩ := h
  unfold connect
  cases hc : dlookup r m.active_connections with
  | none =>
    refine ⟨nodup_map_fst_dset r _ _ h1, nodup_map_fst_dset r _ _ h2, ?_, ?_, ?_⟩
    · intro q
      rw [dlookup_dset, dlookup_dset]
      by_cases hrq : r = q
      · simp [hrq]
      · simp [hrq, h3 q]
    · intro q conns2 hq
      rw [dlookup_dset] at hq
      by_cases hrq : r = q
      · rw [if_pos hrq] at hq
        cases hq
        constructor <;> simp
      · rw [if_neg hrq] at hq
        exact h4 q conns2 hq
    · intro q conns2 parts2 hq hp
      rw [dlookup_dset] at hq hp
      by_cases hrq : r = q
      · rw [if_pos hrq] at hq hp
        cases hq; cases hp
        simp
      · rw [if_neg hrq] at hq hp
        exact h5 q conns2 parts2 hq hp
  | some conns =>
    have hsp : (dlookup r m.room_participants).isSome := by rw [← h3 r, hc]; rfl
    obtain ⟨parts, hp⟩ := Option.isSome_iff_exists.mp hsp
    have hkeys : conns.map Prod.fst = parts := h5 r conns parts hc hp
    have hmem : u ∈ parts ↔ (dlookup u conns).isSome := by
      rw [dlookup_isSome_iff, hkeys]
    have hcnodup : (conns.map Prod.fst).Nodup := (h4 r conns hc).2
    simp only [hp, Option.getD_some]
    by_cases hu : u ∈ parts
    · rw [if_pos hu]
      refine ⟨nodup_map_fst_dset r _ _ h1, h2, ?_, ?_, ?_⟩
      · intro q
        rw [dlookup_dset]
        by_cases hrq : r = q
        · subst hrq
          simp [hp]
        · simp [hrq, h3 q]
      · intro q conns2 hq
        rw [dlookup_dset] at hq
        by_cases hrq : r = q
        · rw [if_pos hrq] at hq
          cases hq
          exact ⟨dset_ne_nil u ws conns, nodup_map_fst_dset u ws conns hcnodup⟩
        · rw [if_neg hrq] at hq
          exact h4 q conns2 hq
      · intro q conns2 parts2 hq hp2
        rw [dlookup_dset] at hq
        by_cases hrq : r = q
        · subst hrq
          rw [if_pos rfl] at hq
          cases hq
          rw [hp] at hp2
          cases hp2
          rw [map_fst_dset_of_isSome u ws conns (hmem.mp hu)]
          exact hkeys
        · rw [if_neg hrq] at hq
          exact h5 q conns2 parts2 hq hp2
    · rw [if_neg hu]
      refine ⟨nodup_map_fst_dset r _ _ h1, nodup_map_fst_dset r _ _ h2, ?_, ?_, ?_⟩
      · intro q
        rw [dlookup_dset, dlookup_dset]
        by_cases hrq : r = q
        · simp [hrq]
        · simp [hrq, h3 q]
      · intro q conns2 hq
        rw [dlookup_dset] at hq
        by_cases hrq : r = q
        · rw [if_pos hrq] at hq
          cases hq
          exact ⟨dset_ne_nil u ws conns, nodup_map_fst_dset u ws conns hcnodup⟩
        · rw [if_neg hrq] at hq
          exact h4 q conns2 hq
      · intro q conns2 parts2 hq hp2
        rw [dlookup_dset] at hq
        rw [dlookup_dset] at hp2
        by_cases hrq : r = q
        · rw [if_pos hrq] at hq hp2
          cases hq; cases hp2
          have hno : dlookup u conns = none :=
            Option.not_isSome_iff_eq_none.mp (fun hs => hu (hmem.mpr hs))
          rw [map_fst_dset_of_none u ws conns hno, hkeys]
        · rw [if_neg hrq] at hq hp2
          exact h5 q conns2 parts2 hq hp2

theorem disconnect_eq_none {m : ConnectionManager} {u : UserId} {r : RoomId}
    (hc : (dlookup r m.active_connections).bind (fun conns => dlookup u conns) = none) :
    disconnect m u r = m := by
  cases hcr : dlookup r m.active_connections with
  | none => simp only [disconnect, hcr]
  | some conns =>
    rw [hcr, Option.some_bind] at hc
    simp only [disconnect, hcr, hc]

theorem disconnect_eq_some {m : ConnectionManager} {u : UserId} {r : RoomId}
    {conns : List (UserId × Handle)} {parts : List UserId} {ws : Handle}
    (hc : dlookup r m.active_connections = some conns)
    (hu : dlookup u conns = some ws)
    (hp : dlookup r m.room_participants = some parts)
    (humem : u ∈ parts) :
    disconnect m u r =
      if (ddel u conns).isEmpty then
        { active_connections := ddel r m.active_connections
          room_participants := ddel r m.room_participants }
      else
        { active_connections := dset r (ddel u conns) m.active_connections
          room_participants := dset r (parts.erase u) m.room_participants } := by
  simp only [disconnect, hc, hu, hp, Option.getD_some, if_pos humem]

theorem inv_disconnect (m : ConnectionManager) (u : UserId) (r : RoomId)
    (h : Inv m) : Inv (disconnect m u r) := by
  obtain ⟨h1, h2, h3, h4, h5⟩ := h
  cases hc : dlookup r m.active_connections with
  | none =>
    rw [disconnect_eq_none (by rw [hc]; rfl)]
    exact ⟨h1, h2, h3, h4, h5⟩
  | some conns =>
    cases hu : dlookup u conns with
    | none =>
      rw [disconnect_eq_none (by rw [hc]; simpa using hu)]
      exact ⟨h1, h2, h3, h4, h5⟩
    | some ws =>
      have hsp : (dlookup r m.room_participants).isSome := by rw [← h3 r, hc]; rfl
      obtain ⟨parts, hp⟩ := Option.isSome_iff_exists.mp hsp
      have hkeys : conns.map Prod.fst = parts := h5 r conns parts hc hp
      have hcnodup : (conns.map Prod.fst).Nodup := (h4 r conns hc).2
      have humem : u ∈ parts := by
        rw [← hkeys, ← dlookup_isSome_iff, hu]; rfl
      rw [disconnect_eq_some hc hu hp humem]
      by_cases hemp : (ddel u conns).isEmpty
      · rw [if_pos hemp]
        refine ⟨?_, ?_, ?_, ?_, ?_⟩
        · rw [map_fst_ddel]; exact h1.erase r
        · rw [map_fst_ddel]; exact h2.erase r
        · intro q
          by_cases hrq : r = q
          · subst hrq
            rw [dlookup_ddel_self r _ h1, dlookup_ddel_self r _ h2]
            rfl
          · rw [dlookup_ddel_of_ne hrq, dlookup_ddel_of_ne hrq]
            exact h3 q
        · intro q conns2 hq
          by_cases hrq : r = q
          · subst hrq
            rw [dlookup_ddel_self r _ h1] at hq
            cases hq
          · rw [dlookup_ddel_of_ne hrq] at hq
            exact h4 q conns2 hq
        · intro q conns2 parts2 hq hp2
          by_cases hrq : r = q
          · subst hrq
            rw [dlookup_ddel_self r _ h1] at hq
            cases hq
          · rw [dlookup_ddel_of_ne hrq] at hq
            rw [dlookup_ddel_of_ne hrq] at hp2
            exact h5 q conns2 parts2 hq hp2
      · rw [if_neg hemp]
        refine ⟨nodup_map_fst_dset r _ _ h1, nodup_map_fst_dset r _ _ h2, ?_, ?_, ?_⟩
        · intro q
          rw [dlookup_dset, dlookup_dset]
          by_cases hrq : r = q
          · simp [hrq]
          · simp [hrq, h3 q]
        · intro q conns2 hq
          rw [dlookup_dset] at hq
          by_cases hrq : r = q
          · rw [if_pos hrq] at hq
            cases hq
            refine ⟨fun hnil => hemp (by rw [hnil]; rfl), ?_⟩
            rw [map_fst_ddel]
            exact hcnodup.erase u
          · rw [if_neg hrq] at hq
            exact h4 q conns2 hq
        · intro q conns2 parts2 hq hp2
          rw [dlookup_dset] at hq
          rw [dlookup_dset] at hp2
          by_cases hrq : r = q
          · rw [if_pos hrq] at hq hp2
            cases hq; cases hp2
            rw [map_fst_ddel, hkeys]
          · rw [if_neg hrq] at hq hp2
            exact h5 q conns2 parts2 hq hp2

theorem inv_applyOp (m : ConnectionManager) (op : Op) (h : Inv m) :
    Inv (applyOp m op) := by
  cases op with
  | conn ws u r => exact inv_connect m ws u r h
  | disc u r => exact inv_disconnect m u r h

theorem inv_runOps (ops : List Op) (m : ConnectionManager) (h : Inv m) :
    Inv (runOps m ops) := by
  induction ops generalizing m with
  | nil => exact h
  | cons op t ih =>
    simp only [runOps, List.foldl_cons]
    exact ih (applyOp m op) (inv_applyOp m op h)

theorem reachable_inv (m : ConnectionManager) (h : Reachable m) : Inv m := by
  obtain ⟨ops, rfl⟩ := h
  exact inv_runOps ops emptyManager inv_empty

/-! ### Operation-level lemmas -/

theorem connect_eq_some {m : ConnectionManager} {ws : Handle} {u : UserId}
    {r : RoomId} {conns : List (UserId × Handle)} {parts : List UserId}
    (hc : dlookup r m.active_connections = some conns)
    (hp : dlookup r m.room_participants = some parts) :
    connect m ws u r =
      { active_connections := dset r (dset u ws conns) m.active_connections
        room_participants :=
          if u ∈ parts then m.room_participants
          else dset r (parts ++ [u]) m.room_participants } := by
  simp only [connect, hc, hp, Option.getD_some]

theorem connect_eq_none {m : ConnectionManager} {ws : Handle} {u : UserId}
    {r : RoomId} (hc : dlookup r m.active_connections = none) :
    connect m ws u r =
      { active_connections := dset r [(u, ws)] m.active_connections
        room_participants := dset r [u] m.room_participants } := by
  simp only [connect, hc]

theorem connOf_connect_self (m : ConnectionManager) (ws : Handle) (u : UserId)
    (r : RoomId) : connOf (connect m ws u r) r u = some ws := by
  cases hc : dlookup r m.active_connections with
  | none =>
    rw [connect_eq_none hc]
    unfold connOf
    rw [dlookup_dset, if_pos rfl, Option.some_bind]
    simp [dlookup]
  | some conns =>
    unfold connOf
    simp only [connect, hc]
    rw [dlookup_dset, if_pos rfl, Option.some_bind, dlookup_dset, if_pos rfl]

theorem mem_broadcast_iff (m : ConnectionManager) (msg : OutMsg) (r : RoomId)
    (ex : Option UserId) (sendOk : Handle → Bool) (d : Delivery) :
    d ∈ broadcast_to_room m msg r ex sendOk ↔
      ((d.user, d.handle) ∈ broadcastAttempts m r ex
        ∧ sendOk d.handle = true ∧ d.payload = msg) := by
  unfold broadcast_to_room broadcastAttempts
  cases hc : dlookup r m.active_connections with
  | none => simp
  | some conns =>
    simp only [Option.getD_some, List.mem_filterMap, List.mem_filter]
    constructor
    · rintro ⟨p, hp, hf⟩
      rw [broadcastStep] at hf
      by_cases h1 : some p.1 = ex
      · rw [if_pos h1] at hf
        cases hf
      · rw [if_neg h1] at hf
        by_cases h2 : sendOk p.2
        · rw [if_pos h2] at hf
          cases hf
          refine ⟨⟨hp, by simpa using h1⟩, h2, rfl⟩
        · rw [if_neg h2] at hf
          cases hf
    · rintro ⟨⟨hmem, hex⟩, hok, hpay⟩
      refine ⟨(d.user, d.handle), hmem, ?_⟩
      rw [broadcastStep]
      rw [if_neg (by simpa using hex), if_pos hok]
      cases d
      simp only at hpay
      rw [hpay]

theorem broadcast_users_all_ok (conns : List (UserId × Handle)) (msg : OutMsg)
    (ex : Option UserId) :
    (conns.filterMap (broadcastStep msg ex sendAllOk)).map Delivery.user
    = (conns.map Prod.fst).filter (fun v => ¬ some v = ex) := by
  induction conns with
  | nil => rfl
  | cons p t ih =>
    rw [List.map_cons, List.filter_cons]
    by_cases h1 : some p.1 = ex
    · have hf : broadcastStep msg ex sendAllOk p = none := by
        simp [broadcastStep, h1]
      rw [List.filterMap_cons_none hf, if_neg (by simp [h1]), ih]
    · have hf : broadcastStep msg ex sendAllOk p
          = some (⟨p.1, p.2, msg⟩ : Delivery) := by
        simp [broadcastStep, h1, sendAllOk]
      rw [List.filterMap_cons_some hf, List.map_cons,
        if_pos (by simp [h1]), ih]

theorem broadcast_map_user (m : ConnectionManager) (msg : OutMsg) (r : RoomId)
    (ex : Option UserId) :
    (broadcast_to_room m msg r ex sendAllOk).map Delivery.user
      = (connectedUsers m r).filter (fun v => ¬ some v = ex) := by
  unfold broadcast_to_room connectedUsers
  cases hc : dlookup r m.active_connections with
  | none => simp
  | some conns =>
    simp only [Option.getD_some]
    exact broadcast_users_all_ok conns msg ex

theorem broadcast_map_user_none (m : ConnectionManager) (msg : OutMsg) (r : RoomId) :
    (broadcast_to_room m msg r none sendAllOk).map Delivery.user = connectedUsers m r := by
  rw [broadcast_map_user]
  exact List.filter_eq_self.mpr (fun a _ => by simp)

theorem not_mem_broadcast_excluded (m : ConnectionManager) (msg : OutMsg)
    (r : RoomId) (U : UserId) (sendOk : Handle → Bool) :
    ¬ U ∈ (broadcast_to_room m msg r (some U) sendOk).map Delivery.user := by
  intro hU
  obtain ⟨d, hd, hdu⟩ := List.mem_map.mp hU
  obtain ⟨hatt, -, -⟩ := (mem_broadcast_iff m msg r (some U) sendOk d).mp hd
  obtain ⟨-, hne⟩ := List.mem_filter.mp hatt
  rw [hdu] at hne
  simp at hne

theorem filter_ne_of_not_mem (l : List String) (U : String) (h : ¬ U ∈ l) :
    l.filter (fun v => ¬ v = U) = l :=
  List.filter_eq_self.mpr (fun b hb => by
    simp only [decide_eq_true_eq]
    exact fun hbU => h (hbU ▸ hb))

theorem length_filter_ne (l : List String) (U : String) (h : l.Nodup) :
    (l.filter (fun v => ¬ v = U)).length = l.length - (if U ∈ l then 1 else 0) := by
  induction l with
  | nil => rfl
  | cons a t ih =>
    simp only [List.nodup_cons] at h
    rw [List.filter_cons]
    by_cases ha : a = U
    · subst ha
      rw [if_neg (by simp), filter_ne_of_not_mem t a h.1,
        if_pos (List.mem_cons_self a t)]
      simp
    · rw [if_pos (by simp [ha]), List.length_cons, List.length_cons, ih h.2]
      have hiff : U ∈ a :: t ↔ U ∈ t := by
        constructor
        · intro hU
          rcases List.mem_cons.mp hU with h1 | h1
          · exact absurd h1.symm ha
          · exact h1
        · exact fun hU => List.mem_cons_of_mem a hU
      rw [if_congr hiff rfl rfl]
      by_cases hU : U ∈ t
      · rw [if_pos hU]
        have h1 : 1 ≤ t.length := List.length_pos.mpr (List.ne_nil_of_mem hU)
        omega
      · rw [if_neg hU]
        omega

theorem connectedUsers_eq_members_of (m : ConnectionManager) (hInv : Inv m)
    (r : RoomId) : connectedUsers m r = members_of m r := by
  obtain ⟨h1, h2, h3, h4, h5⟩ := hInv
  unfold connectedUsers members_of
  cases hc : dlookup r m.active_connections with
  | none =>
    have hp : dlookup r m.room_participants = none :=
      Option.not_isSome_iff_eq_none.mp (by rw [← h3 r, hc]; simp)
    rw [hp]
    rfl
  | some conns =>
    have hsp : (dlookup r m.room_participants).isSome := by rw [← h3 r, hc]; rfl
    obtain ⟨parts, hp⟩ := Option.isSome_iff_exists.mp hsp
    rw [hp]
    exact h5 r conns parts hc hp

theorem connOf_disconnect_self (m : ConnectionManager) (hInv : Inv m)
    (u : UserId) (r : RoomId) : connOf (disconnect m u r) r u = none := by
  obtain ⟨h1, h2, h3, h4, h5⟩ := hInv
  cases hc : dlookup r m.active_connections with
  | none =>
    rw [disconnect_eq_none (by rw [hc]; rfl)]
    unfold connOf
    rw [hc]
    rfl
  | some conns =>
    cases hu : dlookup u conns with
    | none =>
      rw [disconnect_eq_none (by rw [hc]; simpa using hu)]
      unfold connOf
      rw [hc, Option.some_bind, hu]
    | some ws =>
      have hsp : (dlookup r m.room_participants).isSome := by rw [← h3 r, hc]; rfl
      obtain ⟨parts, hp⟩ := Option.isSome_iff_exists.mp hsp
      have hkeys : conns.map Prod.fst = parts := h5 r conns parts hc hp
      have hcnodup : (conns.map Prod.fst).Nodup := (h4 r conns hc).2
      have humem : u ∈ parts := by rw [← hkeys, ← dlookup_isSome_iff, hu]; rfl
      rw [disconnect_eq_some hc hu hp humem]
      by_cases hemp : (ddel u conns).isEmpty
      · rw [if_pos hemp]
        unfold connOf
        rw [dlookup_ddel_self r _ h1]
        rfl
      · rw [if_neg hemp]
        unfold connOf
        rw [dlookup_dset, if_pos rfl, Option.some_bind]
        exact dlookup_ddel_self u conns hcnodup

theorem disconnect_last (m : ConnectionManager) (hInv : Inv m) (u : UserId)
    (ws : Handle) (r : RoomId)
    (hc : dlookup r m.active_connections = some [(u, ws)]) :
    dlookup r (disconnect m u r).active_connections = none ∧
    dlookup r (disconnect m u r).room_participants = none := by
  obtain ⟨h1, h2, h3, h4, h5⟩ := hInv
  have hu : dlookup u [(u, ws)] = some ws := by simp [dlookup]
  have hsp : (dlookup r m.room_participants).isSome := by rw [← h3 r, hc]; rfl
  obtain ⟨parts, hp⟩ := Option.isSome_iff_exists.mp hsp
  have hkeys : ([(u, ws)] : List (UserId × Handle)).map Prod.fst = parts :=
    h5 r [(u, ws)] parts hc hp
  have humem : u ∈ parts := by rw [← hkeys]; simp
  rw [disconnect_eq_some hc hu hp humem]
  have hemp : (ddel u [(u, ws)]).isEmpty = true := by simp [ddel]
  rw [if_pos hemp]
  exact ⟨dlookup_ddel_self r _ h1, dlookup_ddel_self r _ h2⟩

theorem disconnect_several (m : ConnectionManager) (hInv : Inv m) (u : UserId)
    (r : RoomId) (conns : List (UserId × Handle))
    (hc : dlookup r m.active_connections = some conns)
    (hu : (dlookup u conns).isSome) (hlen : 2 ≤ conns.length) :
    (dlookup r (disconnect m u r).active_connections).isSome ∧
    members_of (disconnect m u r) r = (members_of m r).erase u := by
  obtain ⟨h1, h2, h3, h4, h5⟩ := hInv
  obtain ⟨ws, hws⟩ := Option.isSome_iff_exists.mp hu
  have hsp : (dlookup r m.room_participants).isSome := by rw [← h3 r, hc]; rfl
  obtain ⟨parts, hp⟩ := Option.isSome_iff_exists.mp hsp
  have hkeys : conns.map Prod.fst = parts := h5 r conns parts hc hp
  have humem : u ∈ parts := by rw [← hkeys, ← dlookup_isSome_iff, hws]; rfl
  rw [disconnect_eq_some hc hws hp humem]
  have hlen2 : conns.length = (ddel u conns).length + 1 := length_ddel_of_isSome hu
  have hemp : ¬ (ddel u conns).isEmpty = true := by
    intro hx
    rw [List.isEmpty_iff] at hx
    rw [hx, List.length_nil] at hlen2
    omega
  rw [if_neg hemp]
  constructor
  · rw [dlookup_dset, if_pos rfl]
    rfl
  · unfold members_of
    rw [dlookup_dset, if_pos rfl, hp]
    rfl

theorem not_mem_members_of_disconnect (m : ConnectionManager) (hInv : Inv m)
    (u : UserId) (r : RoomId) : ¬ u ∈ members_of (disconnect m u r) r := by
  obtain ⟨h1, h2, h3, h4, h5⟩ := hInv
  cases hc : dlookup r m.active_connections with
  | none =>
    rw [disconnect_eq_none (by rw [hc]; rfl)]
    have hp : dlookup r m.room_participants = none :=
      Option.not_isSome_iff_eq_none.mp (by rw [← h3 r, hc]; simp)
    unfold members_of
    rw [hp]
    simp
  | some conns =>
    have hsp : (dlookup r m.room_participants).isSome := by rw [← h3 r, hc]; rfl
    obtain ⟨parts, hp⟩ := Option.isSome_iff_exists.mp hsp
    have hkeys : conns.map Prod.fst = parts := h5 r conns parts hc hp
    have hcnodup : (conns.map Prod.fst).Nodup := (h4 r conns hc).2
    have hpnodup : parts.Nodup := hkeys ▸ hcnodup
    cases hu : dlookup u conns with
    | none =>
      rw [disconnect_eq_none (by rw [hc]; simpa using hu)]
      unfold members_of
      rw [hp]
      intro hmem
      have : (dlookup u conns).isSome := by
        rw [dlookup_isSome_iff, hkeys]
        simpa using hmem
      rw [hu] at this
      cases this
    | some ws =>
      have humem : u ∈ parts := by rw [← hkeys, ← dlookup_isSome_iff, hu]; rfl
      rw [disconnect_eq_some hc hu hp humem]
      by_cases hemp : (ddel u conns).isEmpty
      · rw [if_pos hemp]
        unfold members_of
        rw [dlookup_ddel_self r _ h2]
        simp
      · rw [if_neg hemp]
        unfold members_of
        rw [dlookup_dset, if_pos rfl]
        simpa using hpnodup.not_mem_erase

theorem count_one_of_connected (m : ConnectionManager) (hInv : Inv m)
    (r : RoomId) (u : UserId) (conns : List (UserId × Handle))
    (hc : dlookup r m.active_connections = some conns)
    (hu : (dlookup u conns).isSome) :
    (conns.map Prod.fst).count u = 1 ∧
    ∀ parts, dlookup r m.room_participants = some parts → parts.count u = 1 := by
  obtain ⟨h1, h2, h3, h4, h5⟩ := hInv
  have hcnodup : (conns.map Prod.fst).Nodup := (h4 r conns hc).2
  have hmem : u ∈ conns.map Prod.fst := (dlookup_isSome_iff u conns).mp hu
  refine ⟨List.count_eq_one_of_mem hcnodup hmem, ?_⟩
  intro parts hp
  have hkeys : conns.map Prod.fst = parts := h5 r conns parts hc hp
  rw [← hkeys]
  exact List.count_eq_one_of_mem hcnodup hmem

theorem connectedUsers_nodup (m : ConnectionManager) (hInv : Inv m) (r : RoomId) :
    (connectedUsers m r).Nodup := by
  unfold connectedUsers
  cases hc : dlookup r m.active_connections with
  | none => simp
  | some conns =>
    simp only [Option.getD_some]
    exact (hInv.2.2.2.1 r conns hc).2

theorem members_of_nodup (m : ConnectionManager) (hInv : Inv m) (r : RoomId) :
    (members_of m r).Nodup := by
  rw [← connectedUsers_eq_members_of m hInv r]
  exact connectedUsers_nodup m hInv r

theorem filter_some_eq_filter (l : List UserId) (U : UserId) :
    l.filter (fun v => ¬ some v = some U) = l.filter (fun v => ¬ v = U) :=
  List.filter_congr (fun a _ => by simp)

/-! ### Concrete states used by the witnesses -/

/-- The operation sequence connecting user `A` (handle 1) and user `B`
(handle 2) to room `r1`. -/
def opsAB : List Op := [Op.conn 1 "A" "r1", Op.conn 2 "B" "r1"]

/-- The registry state with `A` and `B` connected to room `r1`. -/
def mAB : ConnectionManager := runOps emptyManager opsAB

/-! ### Claim theorems -/

/-- C10: on every registry state reachable by any sequence of connect and
disconnect operations, each room's connection-map user-key set equals the
set of users in its participant list, the participant list has no
duplicates, and the connection map and the participant-list map have the
same room keys. -/
theorem c10_registry_maps_agree (m : ConnectionManager) (h : Reachable m) :
    (∀ r, (dlookup r m.active_connections).isSome
        = (dlookup r m.room_participants).isSome) ∧
    (∀ r conns parts, dlookup r m.active_connections = some conns →
        dlookup r m.room_participants = some parts →
        (∀ u, u ∈ conns.map Prod.fst ↔ u ∈ parts)) ∧
    (∀ r parts, dlookup r m.room_participants = some parts → parts.Nodup) := by
  obtain ⟨h1, h2, h3, h4, h5⟩ := reachable_inv m h
  refine ⟨h3, ?_, ?_⟩
  · intro r conns parts hc hp u
    rw [h5 r conns parts hc hp]
  · intro r parts hp
    have hsc : (dlookup r m.active_connections).isSome := by rw [h3 r, hp]; rfl
    obtain ⟨conns, hc⟩ := Option.isSome_iff_exists.mp hsc
    have hnd := (h4 r conns hc).2
    rw [h5 r conns parts hc hp] at hnd
    exact hnd

theorem c10_registry_maps_agree_witness :
    (∀ r, (dlookup r mAB.active_connections).isSome
        = (dlookup r mAB.room_participants).isSome) ∧
    (∀ r conns parts, dlookup r mAB.active_connections = some conns →
        dlookup r mAB.room_participants = some parts →
        (∀ u, u ∈ conns.map Prod.fst ↔ u ∈ parts)) ∧
    (∀ r parts, dlookup r mAB.room_participants = some parts → parts.Nodup) :=
  c10_registry_maps_agree mAB ⟨opsAB, rfl⟩

/-- C2: on every reachable registry state, a room id is a key of
`active_connections` iff that room holds at least one registered
connection handle, and disconnecting the single remaining connection of
a room deletes the room's entry (from both maps) entirely. -/
theorem c2_room_entry_iff_connection (m : ConnectionManager) (h : Reachable m) :
    (∀ r, (dlookup r m.active_connections).isSome ↔
        ∃ conns, dlookup r m.active_connections = some conns ∧ conns ≠ []) ∧
    (∀ r u ws, dlookup r m.active_connections = some [(u, ws)] →
        dlookup r (disconnect m u r).active_connections = none ∧
        dlookup r (disconnect m u r).room_participants = none) := by
  have hInv := reachable_inv m h
  constructor
  · intro r
    constructor
    · intro hs
      obtain ⟨conns, hc⟩ := Option.isSome_iff_exists.mp hs
      exact ⟨conns, hc, (hInv.2.2.2.1 r conns hc).1⟩
    · rintro ⟨conns, hc, -⟩
      rw [hc]
      rfl
  · intro r u ws hc
    exact disconnect_last m hInv u ws r hc

theorem c2_room_entry_iff_connection_witness :
    ((dlookup "r1" mAB.active_connections).isSome ↔
        ∃ conns, dlookup "r1" mAB.active_connections = some conns ∧ conns ≠ []) ∧
    (dlookup "r1" ((disconnect (disconnect mAB "B" "r1") "A" "r1")).active_connections
        = none) := by
  have hthm := c2_room_entry_iff_connection (disconnect mAB "B" "r1")
    ⟨opsAB ++ [Op.disc "B" "r1"], rfl⟩
  refine ⟨(c2_room_entry_iff_connection mAB ⟨opsAB, rfl⟩).1 "r1", ?_⟩
  exact (hthm.2 "r1" "A" 1 (by decide)).1

/-- C5: registering a connection for (room, user) inserts or overwrites
the handle for that pair (creating the room's entries if absent); a
second registration for the same pair with a different handle leaves
exactly that most recent handle registered, and the user occurs exactly
once among the room's connection keys and exactly once in the room's
participant list. -/
theorem c5_register_overwrites (m : ConnectionManager) (h : Reachable m)
    (ws1 ws2 : Handle) (u : UserId) (r : RoomId) :
    connOf (connect m ws1 u r) r u = some ws1 ∧
    connOf (connect (connect m ws1 u r) ws2 u r) r u = some ws2 ∧
    (∀ conns, dlookup r (connect (connect m ws1 u r) ws2 u r).active_connections
        = some conns → (conns.map Prod.fst).count u = 1) ∧
    (∀ parts, dlookup r (connect (connect m ws1 u r) ws2 u r).room_participants
        = some parts → parts.count u = 1) := by
  have hInv2 : Inv (connect (connect m ws1 u r) ws2 u r) :=
    inv_connect _ ws2 u r (inv_connect m ws1 u r (reachable_inv m h))
  have hc2 := connOf_connect_self (connect m ws1 u r) ws2 u r
  refine ⟨connOf_connect_self m ws1 u r, hc2, ?_, ?_⟩
  · intro conns hc
    unfold connOf at hc2
    rw [hc, Option.some_bind] at hc2
    exact (count_one_of_connected _ hInv2 r u conns hc (by rw [hc2]; rfl)).1
  · intro parts hp
    cases hcl : dlookup r (connect (connect m ws1 u r) ws2 u r).active_connections with
    | none =>
      unfold connOf at hc2
      rw [hcl] at hc2
      cases hc2
    | some conns =>
      unfold connOf at hc2
      rw [hcl, Option.some_bind] at hc2
      exact (count_one_of_connected _ hInv2 r u conns hcl (by rw [hc2]; rfl)).2 parts hp

theorem c5_register_overwrites_witness :
    connOf (connect mAB 7 "A" "r1") "r1" "A" = some 7 ∧
    connOf (connect (connect mAB 7 "A" "r1") 9 "A" "r1") "r1" "A" = some 9 ∧
    (∀ conns, dlookup "r1" (connect (connect mAB 7 "A" "r1") 9 "A" "r1").active_connections
        = some conns → (conns.map Prod.fst).count "A" = 1) ∧
    (∀ parts, dlookup "r1" (connect (connect mAB 7 "A" "r1") 9 "A" "r1").room_participants
        = some parts → parts.count "A" = 1) :=
  c5_register_overwrites mAB ⟨opsAB, rfl⟩ 7 9 "A" "r1"

/-- C6: on every reachable registry state, unregistering an absent
(room, user) pair is a no-op returning the state unchanged; unregistering
a present pair removes that entry; removing the sole member's connection
deletes the room from both maps; and removing one of several members'
connections keeps the room present with `members_of` returning exactly
the previous members minus the removed user. -/
theorem c6_unregister_cases (m : ConnectionManager) (h : Reachable m)
    (u : UserId) (r : RoomId) :
    (connOf m r u = none → disconnect m u r = m) ∧
    (¬ connOf m r u = none → connOf (disconnect m u r) r u = none) ∧
    (∀ ws, dlookup r m.active_connections = some [(u, ws)] →
        dlookup r (disconnect m u r).active_connections = none ∧
        dlookup r (disconnect m u r).room_participants = none) ∧
    (∀ conns, dlookup r m.active_connections = some conns →
        (dlookup u conns).isSome → 2 ≤ conns.length →
        (dlookup r (disconnect m u r).active_connections).isSome ∧
        members_of (disconnect m u r) r = (members_of m r).erase u) := by
  have hInv := reachable_inv m h
  refine ⟨?_, ?_, ?_, ?_⟩
  · intro hn
    exact disconnect_eq_none hn
  · intro _
    exact connOf_disconnect_self m hInv u r
  · intro ws hc
    exact disconnect_last m hInv u ws r hc
  · intro conns hc hu hlen
    exact disconnect_several m hInv u r conns hc hu hlen

theorem c6_unregister_cases_witness :
    (connOf mAB "r1" "C" = none → disconnect mAB "C" "r1" = mAB) ∧
    disconnect mAB "C" "r1" = mAB ∧
    ((dlookup "r1" (disconnect mAB "B" "r1").active_connections).isSome ∧
      members_of (disconnect mAB "B" "r1") "r1" = (members_of mAB "r1").erase "B") := by
  refine ⟨(c6_unregister_cases mAB ⟨opsAB, rfl⟩ "C" "r1").1, ?_, ?_⟩
  · exact (c6_unregister_cases mAB ⟨opsAB, rfl⟩ "C" "r1").1 (by decide)
  · exact (c6_unregister_cases mAB ⟨opsAB, rfl⟩ "B" "r1").2.2.2
      [("A", 1), ("B", 2)] (by decide) (by decide) (by decide)

/-- C3: broadcasting to a room delivers (when the transport does not
fail) to exactly the connected members other than the excluded user `U`
— in order, so in particular `|M|` recipients when `U` is not a member
and `|M| - 1` when it is — and never delivers to `U` under any transport
behaviour; with no excluded user every member receives it.  The
connection keys iterated by the fan-out coincide with `members_of`. -/
theorem c3_broadcast_delivers_exactly (m : ConnectionManager) (h : Reachable m)
    (r : RoomId) (U : UserId) (msg : OutMsg) :
    ((broadcast_to_room m msg r (some U) sendAllOk).map Delivery.user
        = (connectedUsers m r).filter (fun v => ¬ v = U)) ∧
    (∀ sendOk, ¬ U ∈ (broadcast_to_room m msg r (some U) sendOk).map Delivery.user) ∧
    ((broadcast_to_room m msg r none sendAllOk).map Delivery.user = connectedUsers m r) ∧
    connectedUsers m r = members_of m r ∧
    (broadcast_to_room m msg r (some U) sendAllOk).length
        = (connectedUsers m r).length - (if U ∈ connectedUsers m r then 1 else 0) := by
  have hInv := reachable_inv m h
  have h1 : (broadcast_to_room m msg r (some U) sendAllOk).map Delivery.user
      = (connectedUsers m r).filter (fun v => ¬ v = U) := by
    rw [broadcast_map_user, filter_some_eq_filter]
  refine ⟨h1, fun sendOk => not_mem_broadcast_excluded m msg r U sendOk,
    broadcast_map_user_none m msg r, connectedUsers_eq_members_of m hInv r, ?_⟩
  have hlen : (broadcast_to_room m msg r (some U) sendAllOk).length
      = ((broadcast_to_room m msg r (some U) sendAllOk).map Delivery.user).length :=
    (List.length_map _ _).symm
  rw [hlen, h1, length_filter_ne _ _ (connectedUsers_nodup m hInv r)]

theorem c3_broadcast_delivers_exactly_witness :
    ((broadcast_to_room mAB (.raw "x") "r1" (some "A") sendAllOk).map Delivery.user
        = (connectedUsers mAB "r1").filter (fun v => ¬ v = "A")) ∧
    (∀ sendOk, ¬ "A" ∈ (broadcast_to_room mAB (.raw "x") "r1" (some "A") sendOk).map
        Delivery.user) ∧
    ((broadcast_to_room mAB (.raw "x") "r1" none sendAllOk).map Delivery.user
        = connectedUsers mAB "r1") ∧
    connectedUsers mAB "r1" = members_of mAB "r1" ∧
    (broadcast_to_room mAB (.raw "x") "r1" (some "A") sendAllOk).length
        = (connectedUsers mAB "r1").length
          - (if "A" ∈ connectedUsers mAB "r1" then 1 else 0) :=
  c3_broadcast_delivers_exactly mAB ⟨opsAB, rfl⟩ "r1" "A" (.raw "x")

/-- C7: a delivery during a broadcast fan-out is determined solely by
the recipient's own attempt entry, the transport outcome on the
recipient's own handle, and the broadcast payload; consequently,
changing the transport outcome on other handles (for example a send
failure on another recipient) leaves this recipient's delivery
unaffected, and the fan-out is a total function — no transport failure
escapes it. -/
theorem c7_send_failure_per_recipient (m : ConnectionManager) (msg : OutMsg)
    (r : RoomId) (ex : Option UserId) (sendOk : Handle → Bool) (d : Delivery) :
    (d ∈ broadcast_to_room m msg r ex sendOk ↔
      ((d.user, d.handle) ∈ broadcastAttempts m r ex
        ∧ sendOk d.handle = true ∧ d.payload = msg)) ∧
    (∀ sendOk2, sendOk2 d.handle = sendOk d.handle →
      (d ∈ broadcast_to_room m msg r ex sendOk2 ↔
        d ∈ broadcast_to_room m msg r ex sendOk)) := by
  refine ⟨mem_broadcast_iff m msg r ex sendOk d, ?_⟩
  intro sendOk2 hagree
  rw [mem_broadcast_iff m msg r ex sendOk2 d, mem_broadcast_iff m msg r ex sendOk d,
    hagree]

theorem c7_send_failure_per_recipient_witness :
    ((⟨"A", 1, .raw "x"⟩ : Delivery) ∈
        broadcast_to_room mAB (.raw "x") "r1" none sendAllOk ↔
      (("A", (1 : Handle)) ∈ broadcastAttempts mAB "r1" none
        ∧ sendAllOk 1 = true ∧ (OutMsg.raw "x") = OutMsg.raw "x")) ∧
    ((⟨"A", 1, .raw "x"⟩ : Delivery) ∈
        broadcast_to_room mAB (.raw "x") "r1" none (fun hdl => ¬ hdl = 2) ↔
      (⟨"A", 1, .raw "x"⟩ : Delivery) ∈
        broadcast_to_room mAB (.raw "x") "r1" none sendAllOk) := by
  refine ⟨(c7_send_failure_per_recipient mAB (.raw "x") "r1" none sendAllOk
    ⟨"A", 1, .raw "x"⟩).1, ?_⟩
  exact (c7_send_failure_per_recipient mAB (.raw "x") "r1" none sendAllOk
    ⟨"A", 1, .raw "x"⟩).2 (fun hdl => ¬ hdl = 2) (by decide)

/-- C8: on an ungraceful disconnect the handler first unregisters the
(room, user) entry and then broadcasts, on the updated registry, a
`user_disconnected` frame carrying the user's id with nobody excluded:
when the transport does not fail, the recipients are exactly the
remaining members (each exactly once, by the final `Nodup`), every
delivered payload is the `user_disconnected` notification, and
`members_of` no longer contains the disconnected user. -/
theorem c8_ungraceful_disconnect (m : ConnectionManager) (h : Reachable m)
    (room : RoomId) (u : UserId) :
    (websocket_on_disconnect m room u sendAllOk).1 = disconnect m u room ∧
    ¬ u ∈ members_of (websocket_on_disconnect m room u sendAllOk).1 room ∧
    ((websocket_on_disconnect m room u sendAllOk).2.map Delivery.user
        = members_of (disconnect m u room) room) ∧
    (∀ d, d ∈ (websocket_on_disconnect m room u sendAllOk).2 →
        d.payload = OutMsg.user_disconnected u) ∧
    (members_of (disconnect m u room) room).Nodup := by
  have hInv := reachable_inv m h
  have hInv2 : Inv (disconnect m u room) := inv_disconnect m u room hInv
  refine ⟨rfl, ?_, ?_, ?_, members_of_nodup _ hInv2 room⟩
  · exact not_mem_members_of_disconnect m hInv u room
  · show (broadcast_to_room (disconnect m u room) (.user_disconnected u) room none
        sendAllOk).map Delivery.user = members_of (disconnect m u room) room
    rw [broadcast_map_user_none]
    exact connectedUsers_eq_members_of _ hInv2 room
  · intro d hd
    exact ((mem_broadcast_iff _ _ _ _ _ d).mp hd).2.2

theorem c8_ungraceful_disconnect_witness :
    (websocket_on_disconnect mAB "r1" "B" sendAllOk).2
        = [⟨"A", 1, .user_disconnected "B"⟩] ∧
    members_of (websocket_on_disconnect mAB "r1" "B" sendAllOk).1 "r1" = ["A"] ∧
    ¬ "B" ∈ members_of (websocket_on_disconnect mAB "r1" "B" sendAllOk).1 "r1" := by
  refine ⟨by decide, by decide, ?_⟩
  exact (c8_ungraceful_disconnect mAB ⟨opsAB, rfl⟩ "r1" "B").2.1

theorem send_personal_message_found {m : ConnectionManager} {msg : OutMsg}
    {tu : UserId} {room : RoomId} {ws : Handle} {sendOk : Handle → Bool}
    {conns : List (UserId × Handle)}
    (hc : dlookup room m.active_connections = some conns)
    (hw : dlookup tu conns = some ws) (hok : sendOk ws = true) :
    send_personal_message m msg tu room sendOk = some [⟨tu, ws, msg⟩] := by
  simp only [send_personal_message, hc, hw, if_pos hok]

theorem send_personal_message_not_found {m : ConnectionManager} {msg : OutMsg}
    {tu : UserId} {room : RoomId} {sendOk : Handle → Bool}
    (hn : connOf m room tu = none) :
    send_personal_message m msg tu room sendOk = some [] := by
  unfold connOf at hn
  cases hc : dlookup room m.active_connections with
  | none => simp only [send_personal_message, hc]
  | some conns =>
    rw [hc, Option.some_bind] at hn
    simp only [send_personal_message, hc, hn]

/-- C4: a targeted inbound frame (`webrtc_offer`, `webrtc_answer` or
`ice_candidate`) is relayed to exactly the registered handle of
`to_user`, carrying the raw inbound text unmodified, and the session
stays active with the registry untouched; when `to_user` has no
registered handle in the room, nothing is delivered, the registry is
untouched, the session stays active, and the three request-style relay
endpoints still acknowledge success with the registry they were given
returned unchanged. -/
theorem c4_targeted_relay (m : ConnectionManager) (room u tu data t : String)
    (sendOk : Handle → Bool)
    (ht : t = "webrtc_offer" ∨ t = "webrtc_answer" ∨ t = "ice_candidate") :
    (∀ conns ws, dlookup room m.active_connections = some conns →
        dlookup tu conns = some ws → sendOk ws = true →
        websocket_on_frame m room u data (some ⟨some t, some tu⟩) sendOk
          = StepResult.active m [⟨tu, ws, .raw data⟩]) ∧
    (connOf m room tu = none →
        websocket_on_frame m room u data (some ⟨some t, some tu⟩) sendOk
            = StepResult.active m [] ∧
        (∀ fu off, send_offer m ⟨room, fu, tu, off⟩ sendOk
            = some (m, [], "Offer sent")) ∧
        (∀ fu ans, send_answer m ⟨room, fu, tu, ans⟩ sendOk
            = some (m, [], "Answer sent")) ∧
        (∀ fu cand, send_ice_candidate m ⟨room, fu, tu, cand⟩ sendOk
            = some (m, [], "ICE candidate sent"))) := by
  constructor
  · intro conns ws hc hw hok
    simp only [websocket_on_frame, if_pos ht, send_personal_message_found hc hw hok]
  · intro hn
    refine ⟨?_, ?_, ?_, ?_⟩
    · simp only [websocket_on_frame, if_pos ht, send_personal_message_not_found hn]
    · intro fu off
      simp only [send_offer, send_personal_message_not_found hn, Option.map_some']
    · intro fu ans
      simp only [send_answer, send_personal_message_not_found hn, Option.map_some']
    · intro fu cand
      simp only [send_ice_candidate, send_personal_message_not_found hn,
        Option.map_some']

theorem c4_targeted_relay_witness :
    websocket_on_frame mAB "r1" "A" "frame" (some ⟨some "webrtc_offer", some "B"⟩)
        sendAllOk = StepResult.active mAB [⟨"B", 2, .raw "frame"⟩] ∧
    websocket_on_frame mAB "r1" "A" "frame" (some ⟨some "webrtc_answer", some "C"⟩)
        sendAllOk = StepResult.active mAB [] ∧
    send_offer mAB ⟨"r1", "A", "C", "blob"⟩ sendAllOk
        = some (mAB, [], "Offer sent") := by
  have hfound := (c4_targeted_relay mAB "r1" "A" "B" "frame" "webrtc_offer"
    sendAllOk (Or.inl rfl)).1 [("A", 1), ("B", 2)] 2 (by decide) (by decide) rfl
  have hmiss := (c4_targeted_relay mAB "r1" "A" "C" "frame" "webrtc_answer"
    sendAllOk (Or.inr (Or.inl rfl))).2 (by decide)
  exact ⟨hfound, hmiss.1, hmiss.2.1 "A" "blob"⟩

/-- C1 is false on the code: with `A` and `B` connected to `r1`, an
inbound frame whose `json.loads` fails does not leave the session
active with the frame ignored — the receive loop ends in the `crashed`
outcome instead, because `websocket_endpoint` catches only
`WebSocketDisconnect`. -/
theorem c1_counterexample_malformed_crashes :
    websocket_on_frame mAB "r1" "A" "not json" none sendAllOk
      = StepResult.crashed mAB ∧
    ¬ websocket_on_frame mAB "r1" "A" "not json" none sendAllOk
      = StepResult.active mAB [] := by
  constructor
  · rfl
  · decide

/-- C1 (amended): an inbound frame that fails to parse as a known
signaling variant (malformed JSON or a payload without a `"type"` key)
raises an uncaught exception out of the receive loop: the session does
not continue — the connection is torn down — while the registry state
is left unchanged (no unregister runs and no disconnect notification is
broadcast). -/
theorem c1_amended_malformed_crashes (m : ConnectionManager)
    (room u data : String) (sendOk : Handle → Bool) :
    websocket_on_frame m room u data none sendOk = StepResult.crashed m ∧
    (∀ tu, websocket_on_frame m room u data (some ⟨none, tu⟩) sendOk
        = StepResult.crashed m) ∧
    (∀ ds, ¬ websocket_on_frame m room u data none sendOk
        = StepResult.active m ds) := by
  refine ⟨rfl, fun tu => rfl, fun ds h => ?_⟩
  rw [show websocket_on_frame m room u data none sendOk = StepResult.crashed m
    from rfl] at h
  cases h

theorem c1_amended_malformed_crashes_witness :
    websocket_on_frame mAB "r1" "A" "not json" none sendAllOk
        = StepResult.crashed mAB ∧
    websocket_on_frame mAB "r1" "A" "oops" (some ⟨none, none⟩) sendAllOk
        = StepResult.crashed mAB := by
  refine ⟨(c1_amended_malformed_crashes mAB "r1" "A" "not json" sendAllOk).1, ?_⟩
  exact (c1_amended_malformed_crashes mAB "r1" "A" "oops" sendAllOk).2.1 none

theorem find?_updateFirst (p : α → Bool) (f : α → α) (l : List α) (a : α)
    (h : l.find? p = some a) (hf : p (f a) = true) :
    (updateFirst p f l).find? p = some (f a) := by
  induction l with
  | nil => cases h
  | cons b t ih =>
    by_cases hb : p b
    · rw [List.find?_cons_of_pos _ hb] at h
      cases h
      rw [updateFirst, if_pos hb, List.find?_cons_of_pos _ hf]
    · rw [List.find?_cons_of_neg _ hb] at h
      rw [updateFirst, if_neg hb, List.find?_cons_of_neg _ hb]
      exact ih h

theorem map_updateFirst (p : α → Bool) (f : α → α) (g : α → β) (l : List α)
    (h : ∀ a, g (f a) = g a) : (updateFirst p f l).map g = l.map g := by
  induction l with
  | nil => rfl
  | cons b t ih => by_cases hb : p b <;> simp [updateFirst, hb, h, ih]

theorem eraseP_id_no_match (l : RoomStore) (room : RoomId)
    (hids : (l.map RoomRecord.id).Nodup) :
    ∀ rec ∈ l.eraseP (fun rec => rec.id = room), ¬ rec.id = room := by
  induction l with
  | nil => simp
  | cons a t ih =>
    simp only [List.map_cons, List.nodup_cons] at hids
    by_cases ha : a.id = room
    · rw [List.eraseP_cons_of_pos (by simpa using ha)]
      intro rec hrec hrid
      exact hids.1 (by rw [ha, ← hrid]; exact List.mem_map_of_mem RoomRecord.id hrec)
    · rw [List.eraseP_cons_of_neg (by simpa using ha)]
      intro rec hrec hrid
      rcases List.mem_cons.mp hrec with h1 | h1
      · exact ha (h1 ▸ hrid)
      · exact ih hids.2 rec h1 hrid

theorem not_mem_filter_ne (l : List String) (a : String) :
    ¬ a ∈ l.filter (fun v => ¬ v = a) := by
  intro h
  obtain ⟨-, hp⟩ := List.mem_filter.mp h
  simp at hp

/-- C9 is false on the code: a room whose record carries user `X` in
`active_speakers` but not in `participants` — a state that
`update_voice_status` produces, since `$addToSet` never checks
participation — accepts `X`'s leave with the success acknowledgment
while leaving the store byte-for-byte unchanged: `X` is not removed
from the `active_speakers` list. -/
theorem c9_counterexample_stale_speaker :
    (update_voice_status (create_room [] "r1" "C") emptyManager "r1" "X" true false
        "X" sendAllOk).1
      = [⟨"r1", "C", ["C"], ["X"]⟩] ∧
    leave_room [⟨"r1", "C", ["C"], ["X"]⟩] emptyManager "r1" "X" sendAllOk
      = .ok ([⟨"r1", "C", ["C"], ["X"]⟩], emptyManager, [], "Successfully left room") ∧
    "X" ∈ (⟨"r1", "C", ["C"], ["X"]⟩ : RoomRecord).active_speakers := by
  refine ⟨by rfl, by rfl, by decide⟩

/-- C9 (amended): leaving a missing room is the 404; when the acting
user is in the participant list, a successful leave pulls the user from
both the participant and active-speakers lists and deletes the room
record exactly when the pulled participant list is empty — regardless
of `created_by`; when the acting user is not in the participant list
(even if still in `active_speakers`), the store is returned unchanged,
yet the call still succeeds. -/
theorem c9_amended_leave_room (store : RoomStore) (m : ConnectionManager)
    (room : RoomId) (user : UserId) (sendOk : Handle → Bool)
    (hids : (store.map RoomRecord.id).Nodup) :
    (store.find? (fun rec => rec.id = room) = none →
        leave_room store m room user sendOk = .error "Room not found") ∧
    (∀ rec, store.find? (fun rec => rec.id = room) = some rec →
        user ∈ rec.participants →
        ∃ st2, leave_room store m room user sendOk
            = .ok (st2, disconnect m user room,
                broadcast_to_room (disconnect m user room) (.user_left user room)
                  room none sendOk,
                "Successfully left room") ∧
          ((pullUser user rec).participants = [] →
              st2.find? (fun rec2 => rec2.id = room) = none) ∧
          (¬ (pullUser user rec).participants = [] →
              st2.find? (fun rec2 => rec2.id = room) = some (pullUser user rec) ∧
              ¬ user ∈ (pullUser user rec).participants ∧
              ¬ user ∈ (pullUser user rec).active_speakers)) ∧
    (∀ rec, store.find? (fun rec => rec.id = room) = some rec →
        ¬ user ∈ rec.participants → ¬ rec.participants = [] →
        leave_room store m room user sendOk
          = .ok (store, disconnect m user room,
              broadcast_to_room (disconnect m user room) (.user_left user room)
                room none sendOk,
              "Successfully left room")) := by
  refine ⟨?_, ?_, ?_⟩
  · intro hnone
    simp only [leave_room, hnone]
  · intro rec hfind hmem
    have hprec : decide (rec.id = room) = true := by
      have hx := List.find?_some hfind
      exact hx
    have hpid : ((fun rec2 : RoomRecord => decide (rec2.id = room))
        (pullUser user rec)) = true := hprec
    have hfind2 := find?_updateFirst (fun rec2 => decide (rec2.id = room))
      (pullUser user) store rec hfind hpid
    have hids2 : ((updateFirst (fun rec2 : RoomRecord => decide (rec2.id = room))
        (pullUser user) store).map RoomRecord.id).Nodup := by
      have hmap := map_updateFirst (fun rec2 : RoomRecord => decide (rec2.id = room))
        (pullUser user) RoomRecord.id store (fun a => rfl)
      rw [hmap]
      exact hids
    by_cases hempt : (pullUser user rec).participants = []
    · refine ⟨(updateFirst (fun rec2 : RoomRecord => decide (rec2.id = room))
          (pullUser user) store).eraseP (fun rec2 => rec2.id = room), ?_, ?_, ?_⟩
      · have hie : ((pullUser user rec).participants).isEmpty = true := by
          rw [hempt]
          rfl
        simp only [leave_room, hfind, if_pos hmem, hfind2, hie, if_pos]
      · intro _
        exact List.find?_eq_none.mpr (fun a ha => by
          simpa using eraseP_id_no_match _ room hids2 a ha)
      · intro hne
        exact absurd hempt hne
    · refine ⟨updateFirst (fun rec2 : RoomRecord => decide (rec2.id = room))
          (pullUser user) store, ?_, ?_, ?_⟩
      · have hie : ((pullUser user rec).participants).isEmpty = false := by
          rw [Bool.eq_false_iff]
          intro hx
          exact hempt (List.isEmpty_iff.mp hx)
        simp only [leave_room, hfind, if_pos hmem, hfind2, hie, Bool.false_eq_true,
          if_neg, not_false_iff]
      · intro he
        exact absurd he hempt
      · intro _
        exact ⟨hfind2, not_mem_filter_ne _ user, not_mem_filter_ne _ user⟩
  · intro rec hfind hno hne
    have hie : (rec.participants.isEmpty) = false := by
      rw [Bool.eq_false_iff]
      intro hx
      exact hne (List.isEmpty_iff.mp hx)
    simp only [leave_room, hfind, if_neg hno, hie, Bool.false_eq_true, if_neg,
      not_false_iff]

theorem c9_amended_leave_room_witness :
    ∃ st2, leave_room [⟨"r1", "C", ["C", "D"], ["C"]⟩] emptyManager "r1" "C" sendAllOk
        = .ok (st2, disconnect emptyManager "C" "r1",
            broadcast_to_room (disconnect emptyManager "C" "r1") (.user_left "C" "r1")
              "r1" none sendAllOk,
            "Successfully left room") ∧
      ((pullUser "C" ⟨"r1", "C", ["C", "D"], ["C"]⟩).participants = [] →
          st2.find? (fun rec2 => rec2.id = "r1") = none) ∧
      (¬ (pullUser "C" ⟨"r1", "C", ["C", "D"], ["C"]⟩).participants = [] →
          st2.find? (fun rec2 => rec2.id = "r1")
              = some (pullUser "C" ⟨"r1", "C", ["C", "D"], ["C"]⟩) ∧
          ¬ "C" ∈ (pullUser "C" ⟨"r1", "C", ["C", "D"], ["C"]⟩).participants ∧
          ¬ "C" ∈ (pullUser "C" ⟨"r1", "C", ["C", "D"], ["C"]⟩).active_speakers) :=
  (c9_amended_leave_room [⟨"r1", "C", ["C", "D"], ["C"]⟩] emptyManager "r1" "C"
    sendAllOk (by decide)).2.1 ⟨"r1", "C", ["C", "D"], ["C"]⟩ (by decide) (by decide)

end VoiceChat
